import Mathlib

/-!
Verification of the `miniature` package-cache / version-resolution core
(`src/miniature/cache.py`, `load.py`, `tag.py`, `publish.py`) against its
natural-language specification.

Strings are modelled as `List Char` (`Str`).  Python string operations used by
the source (`str.replace`, `str.split`, `str.lstrip`, `str.strip`, `"/".join`)
are given executable translations below.  Effectful git / filesystem calls are
modelled by explicit environment records whose fields say whether each call
succeeds or raises, and stateful operations are modelled as explicit
state-passing functions.  The third-party `packaging` library (not part of the
repository) is modelled on the numeric-release fragment its call sites use.

The file is organised as: all definitions first, then all theorems.
-/

/-- Strings of the modelled program: lists of characters. -/
abbrev Str : Type := List Char

/-- Conversion from Lean string literals to modelled strings. -/
def strL (s : String) : Str := s.toList

/-- Boolean prefix test on character lists (used to locate occurrences of a
pattern, as Python `str.replace` does). -/
def isPre : Str → Str → Bool
  | [], _ => true
  | _ :: _, [] => false
  | a :: as, b :: bs => a == b && isPre as bs

/-- Fuelled translation of Python `str.replace(pat, rep)`: scan left to right,
replacing each non-overlapping occurrence of `pat` by `rep`.  The fuel is the
length of the remaining input, so the function is structural and computable by
kernel reduction.  The empty pattern never occurs in the source. -/
def pyReplaceF (pat rep : Str) : Nat → Str → Str
  | _, [] => []
  | 0, s => s
  | fuel + 1, c :: rest =>
    if !pat.isEmpty && isPre pat (c :: rest) then
      rep ++ pyReplaceF pat rep fuel ((c :: rest).drop pat.length)
    else
      c :: pyReplaceF pat rep fuel rest

/-- Python `s.replace(pat, rep)` (for non-empty `pat`). -/
def pyReplace (pat rep s : Str) : Str := pyReplaceF pat rep s.length s

/-- Python `s.split(c)` for a single-character separator: always returns a
non-empty list of (possibly empty) fields. -/
def splitOnChar (c : Char) : Str → List Str
  | [] => [[]]
  | x :: xs =>
    match splitOnChar c xs with
    | [] => [[]]
    | h :: t => if x = c then [] :: h :: t else (x :: h) :: t

/-- Python `"/".join(parts)` and friends. -/
def joinChar (c : Char) (parts : List Str) : Str := List.intercalate [c] parts

/-- Python `s.strip(c)` for a single strip character. -/
def stripChar (c : Char) (s : Str) : Str :=
  ((s.dropWhile (· = c)).reverse.dropWhile (· = c)).reverse

/-- Python `s.strip()` (whitespace). -/
def stripWs (s : Str) : Str :=
  ((s.dropWhile Char.isWhitespace).reverse.dropWhile Char.isWhitespace).reverse

/-- Python `s.rstrip(c)` for a single strip character. -/
def rstripChar (c : Char) (s : Str) : Str := (s.reverse.dropWhile (· = c)).reverse

/-- Python `s.endswith(suf)`. -/
def endsWithStr (suf s : Str) : Bool := isPre suf.reverse s.reverse

/-! ### `RepositoryCache.get_cache_key` / `get_repo_path` (cache.py lines 42-74) -/

/-- URL normalisation performed by `get_cache_key` (the five successive
`str.replace` calls, in source order: strip `https://`, strip `http://`,
rewrite `file://` to `file_`, then replace `/` and `:` by `_`). -/
def normalizeUrl (repo_url : Str) : Str :=
  pyReplace (strL ":") (strL "_")
    (pyReplace (strL "/") (strL "_")
      (pyReplace (strL "file://") (strL "file_")
        (pyReplace (strL "http://") []
          (pyReplace (strL "https://") [] repo_url))))

/-- `RepositoryCache.get_cache_key`: normalised URL, plus an `@branch` suffix
for a truthy branch other than `main` / `master` (`if branch and branch not in
['main', 'master']`). -/
def get_cache_key (repo_url : Str) (branch : Option Str) : Str :=
  match branch with
  | some b =>
    if b ≠ [] ∧ b ∉ [strL "main", strL "master"] then normalizeUrl repo_url ++ '@' :: b
    else normalizeUrl repo_url
  | none => normalizeUrl repo_url

/-- `RepositoryCache.get_repo_path`: `cache_dir / cache_key`. -/
def get_repo_path (cache_dir : Str) (repo_url : Str) (branch : Option Str) : Str :=
  cache_dir ++ '/' :: get_cache_key repo_url branch

/-! ### Cache state (`RepositoryCache.has_repo` and the persisted index,
cache.py lines 29-40 and 76-87) -/

/-- Observable cache state: the persisted index (keys are `url` or
`url@branch` strings, values the stored entry path) and the set of
filesystem paths that exist. -/
structure CacheFS where
  index : List (Str × Str)
  fsPaths : List Str
deriving DecidableEq

/-- Index lookup (`key in self._index`). -/
def indexLookup (fs : CacheFS) (key : Str) : Option Str :=
  (fs.index.filter (fun p => p.1 = key)).head?.map Prod.snd

/-- `RepositoryCache.has_repo`: `repo_path.exists() and (repo_path /
".git").exists()` — a pure filesystem check; the index is not consulted. -/
def has_repo (cache_dir : Str) (fs : CacheFS) (repo_url : Str) (branch : Option Str) : Bool :=
  (fs.fsPaths.contains (get_repo_path cache_dir repo_url branch)) &&
    (fs.fsPaths.contains (get_repo_path cache_dir repo_url branch ++ strL "/.git"))

/-! ### Version parsing and ordering (`packaging.version` as used by load.py)

`load.py` calls `packaging.version.parse` and `packaging.specifiers.SpecifierSet`
from the third-party `packaging` library (not part of this repository).  They
are modelled on the fragment the tag scheme produces: purely numeric
dotted-release versions (`1`, `1.0`, `1.2.3`, ...), compared per PEP 440 by
zero-padding the shorter release tuple.  Strings outside this fragment count as
unparsable. -/

/-- Numeral value of a digit string (Python `int`). -/
def parseNat (s : Str) : Nat := s.foldl (fun n c => 10 * n + (c.toNat - '0'.toNat)) 0

/-- A non-empty, all-digit field. -/
def isDigits (s : Str) : Bool := !s.isEmpty && s.all (·.isDigit)

/-- Model of `packaging.version.parse` on numeric dotted versions; `none`
models `InvalidVersion`. -/
def parseVersion (s : Str) : Option (List Nat) :=
  let parts := splitOnChar '.' s
  if parts.all isDigits then some (parts.map parseNat) else none

/-- PEP 440 release-tuple comparison: compare componentwise, padding the
shorter tuple with zeros (so `1.0 == 1.0.0` and `1.2 < 1.10`). -/
def vle : List Nat → List Nat → Bool
  | [], _ => true
  | a :: as, [] => (a == 0) && vle as []
  | a :: as, b :: bs => if a < b then true else if b < a then false else vle as bs

/-- Ordering of `(tag, parsed version)` pairs by version, as used by
`version_tags.sort(key=lambda x: x[1])`. -/
def tagLe (p q : Str × List Nat) : Prop := vle p.2 q.2 = true

instance : DecidableRel tagLe := fun p q => instDecidableEqBool (vle p.2 q.2) true

instance : IsTotal (Str × List Nat) tagLe where
  total p q := by
    show vle p.2 q.2 = true ∨ vle q.2 p.2 = true
    generalize p.2 = a
    generalize q.2 = b
    induction a generalizing b with
    | nil => exact Or.inl rfl
    | cons x xs ih =>
      cases b with
      | nil => exact Or.inr rfl
      | cons y ys =>
        rcases Nat.lt_trichotomy x y with h | h | h
        · exact Or.inl (by simp [vle, h])
        · subst h
          rcases ih ys with h' | h'
          · exact Or.inl (by simp [vle, h'])
          · exact Or.inr (by simp [vle, h'])
        · exact Or.inr (by simp [vle, h])

instance : IsTrans (Str × List Nat) tagLe where
  trans p q r hab hbc := by
    show vle p.2 r.2 = true
    have hZ1 : ∀ (a : List Nat), vle a [] = true → ∀ b, vle a b = true := by
      intro a
      induction a with
      | nil => intro _ b; rfl
      | cons x xs ih =>
        intro h b
        simp only [vle, Bool.and_eq_true, beq_iff_eq] at h
        obtain ⟨hx, hxs⟩ := h
        subst hx
        cases b with
        | nil => simp [vle, hxs]
        | cons y ys =>
          by_cases hy : 0 < y
          · simp [vle, hy]
          · have : y = 0 := by omega
            subst this
            simp [vle, ih hxs ys]
    have hZ2 : ∀ (a b : List Nat), vle a b = true → vle b [] = true → vle a [] = true := by
      intro a
      induction a with
      | nil => intro b _ _; rfl
      | cons x xs ih =>
        intro b hab' hb
        cases b with
        | nil => exact hab'
        | cons y ys =>
          simp only [vle, Bool.and_eq_true, beq_iff_eq] at hb
          obtain ⟨hy, hys⟩ := hb
          subst hy
          simp only [vle] at hab'
          rw [if_neg (by omega)] at hab'
          by_cases h0x : 0 < x
          · rw [if_pos h0x] at hab'
            exact absurd hab' (by simp)
          · have : x = 0 := by omega
            subst this
            rw [if_neg (by omega)] at hab'
            simp [vle, ih _ hab' hys]
    revert hab hbc
    show vle p.2 q.2 = true → vle q.2 r.2 = true → vle p.2 r.2 = true
    generalize p.2 = a
    generalize q.2 = b
    generalize r.2 = c
    induction a generalizing b c with
    | nil => intro _ _; rfl
    | cons x xs ih =>
      intro hab hbc
      cases b with
      | nil => exact hZ1 _ (hZ2 _ _ hab rfl) c
      | cons y ys =>
        cases c with
        | nil => exact hZ2 _ _ hab hbc
        | cons z zs =>
          simp only [vle] at hab hbc ⊢
          rcases Nat.lt_trichotomy x y with hxy | hxy | hxy
          · rcases Nat.lt_trichotomy y z with hyz | hyz | hyz
            · rw [if_pos (by omega)]
            · subst hyz
              rw [if_pos (by omega)]
            · rw [if_pos hyz, if_neg (by omega)] at hbc
              exact absurd hbc (by simp)
          · subst hxy
            rw [if_neg (by omega), if_neg (by omega)] at hab
            rcases Nat.lt_trichotomy x z with hxz | hxz | hxz
            · rw [if_pos hxz]
            · subst hxz
              rw [if_neg (by omega), if_neg (by omega)] at hbc ⊢
              exact ih _ _ hab hbc
            · rw [if_pos hxz, if_neg (by omega)] at hbc
              exact absurd hbc (by simp)
          · rw [if_pos hxy, if_neg (by omega)] at hab
            exact absurd hab (by simp)

/-! ### `_find_latest_tag` / `_find_matching_tag` (load.py lines 283-382) -/

/-- Version extracted from a tag name: last `/`-delimited segment with all
leading `v` characters stripped (`str.lstrip("v")`), then parsed. -/
def tagVersion (t : Str) : Option (List Nat) :=
  parseVersion (((splitOnChar '/' t).getLastD t).dropWhile (· = 'v'))

/-- `_find_latest_tag`: pair each tag with its parsed version, ignoring
unparsable tags; if none parses, fall back to the last enumerated tag;
otherwise sort stably by version and return the last (maximal) entry.  The
repository's tag list is passed in as `tags`. -/
def _find_latest_tag (tags : List Str) : Option Str :=
  if tags.isEmpty then none
  else
    let version_tags := tags.filterMap (fun t => (tagVersion t).map (fun v => (t, v)))
    if version_tags.isEmpty then tags.getLast?
    else ((List.insertionSort tagLe version_tags).getLast?).map Prod.fst

/-- Comparison operators of the modelled `SpecifierSet` fragment. -/
inductive CmpOp
  | ge | le | gt | lt | eq | ne
deriving DecidableEq

/-- One comparator clause, e.g. `>=1.0.0`.  Clauses outside the modelled
fragment (including bare versions, `~=`, `===`, wildcards) yield `none`,
modelling `InvalidSpecifier`. -/
def parseClause (s : Str) : Option (CmpOp × List Nat) :=
  match s with
  | '>' :: '=' :: rest => (parseVersion (stripWs rest)).map (fun v => (CmpOp.ge, v))
  | '<' :: '=' :: rest => (parseVersion (stripWs rest)).map (fun v => (CmpOp.le, v))
  | '=' :: '=' :: rest => (parseVersion (stripWs rest)).map (fun v => (CmpOp.eq, v))
  | '!' :: '=' :: rest => (parseVersion (stripWs rest)).map (fun v => (CmpOp.ne, v))
  | '>' :: rest => (parseVersion (stripWs rest)).map (fun v => (CmpOp.gt, v))
  | '<' :: rest => (parseVersion (stripWs rest)).map (fun v => (CmpOp.lt, v))
  | _ => none

/-- Model of `packaging.specifiers.SpecifierSet`: split on `,`, strip
whitespace, drop empty fields, and parse every clause. -/
def parseSpecifierSet (s : Str) : Option (List (CmpOp × List Nat)) :=
  (((splitOnChar ',' s).map stripWs).filter (· ≠ [])).mapM parseClause

/-- `ver in specifier` for a single clause. -/
def satisfiesClause (v : List Nat) : CmpOp × List Nat → Bool
  | (CmpOp.ge, w) => vle w v
  | (CmpOp.le, w) => vle v w
  | (CmpOp.gt, w) => vle w v && !(vle v w)
  | (CmpOp.lt, w) => vle v w && !(vle w v)
  | (CmpOp.eq, w) => vle v w && vle w v
  | (CmpOp.ne, w) => !(vle v w && vle w v)

/-- `ver in specifier_set`: all clauses must hold. -/
def satisfiesAll (clauses : List (CmpOp × List Nat)) (v : List Nat) : Bool :=
  clauses.all (satisfiesClause v)

/-- `_find_matching_tag`: keep the valid-version tags whose version is in the
specifier set, sort by version, return the last; `none` when no tag matches or
the specifier is invalid (the latter raises and is caught). -/
def _find_matching_tag (tags : List Str) (version_spec : Str) : Option Str :=
  if tags.isEmpty then none
  else
    match parseSpecifierSet version_spec with
    | none => none
    | some clauses =>
      let valid_tags := tags.filterMap (fun t =>
        (tagVersion t).bind (fun v => if satisfiesAll clauses v then some (t, v) else none))
      if valid_tags.isEmpty then none
      else ((List.insertionSort tagLe valid_tags).getLast?).map Prod.fst

/-! ### `_is_commit_sha` (load.py lines 385-387) and the `load_pkg` dispatch -/

/-- A hexadecimal digit of either case (`[0-9a-f]` with `re.IGNORECASE`). -/
def isHexDigitCI (c : Char) : Bool :=
  c.isDigit || ('a' ≤ c && c ≤ 'f') || ('A' ≤ c && c ≤ 'F')

/-- A run of 6 to 40 case-insensitive hexadecimal characters. -/
def hexRun (s : Str) : Bool :=
  decide (6 ≤ s.length) && decide (s.length ≤ 40) && s.all isHexDigitCI

/-- `_is_commit_sha`: `re.match(r"^[0-9a-f]{6,40}$", value, re.IGNORECASE)`.
Besides matching case-insensitively, `$` in `re.match` also matches just
before one final newline, so `value` may carry one trailing `'\n'`. -/
def _is_commit_sha (value : Str) : Bool :=
  hexRun value ||
    (match value.getLast? with
     | some c => if c = '\n' then hexRun value.dropLast else false
     | none => false)

/-- The direct-reference test of `load_pkg` (load.py line 105):
`"/" in version or _is_commit_sha(version)`. -/
def isDirectRef (v : Str) : Bool := v.contains '/' || _is_commit_sha v

/-! ### `load_pkg` (load.py lines 17-171)

The model covers the documented parameters `repo`, `version`, `target_dir`,
`branch`, `clean`, `use_symlink` (the deprecated `gitdbs_config`, the
`cache_dir` selection and the `package_def` convenience wrapper only rebind
these same parameters).  `LoadEnv` carries the observable repository state and
says, for each effectful call, whether it succeeds or raises (with which
message). -/

/-- Environment of one `load_pkg` run. -/
structure LoadEnv where
  /-- Tag names of the cached repository. -/
  tags : List Str
  /-- `git_repo.active_branch.name`. -/
  activeBranch : Str
  /-- Local branch names (`git_repo.heads`). -/
  heads : List Str
  /-- Full ref names (`git_repo.refs`), e.g. `origin/dev`. -/
  refs : List Str
  /-- Whether `target_path.exists()` before cleanup. -/
  targetExists : Bool
  /-- Error raised by `shutil.rmtree(target_path)`, if any. -/
  rmtreeErr : Option Str
  /-- Error raised by `get_cache` / `cache.clone_or_update`, if any. -/
  cloneErr : Option Str
  /-- Error raised by checking out the given ref, if any. -/
  checkoutErr : Str → Option Str
  /-- Error raised by `shutil.copytree`, if any. -/
  copyErr : Option Str
  /-- Error raised by `cache.create_symlink`, if any. -/
  symlinkErr : Option Str

/-- The result dictionary of `load_pkg`; absent keys are `none`. -/
structure LoadResult where
  success : Bool
  message : Str
  target_dir : Option Str
  repo : Option Str
  branch : Option Str
  version : Option Str
  error : Option Str
deriving DecidableEq

/-- Outcome of a Python call: a returned value or an uncaught exception. -/
inductive PyOutcome (α : Type)
  | ret (d : α)
  | exn (e : Str)
deriving DecidableEq

/-- Python `version or branch` (used in the failure dictionary). -/
def orElseStr (o : Option Str) (d : Str) : Str :=
  match o with
  | some s => if s = [] then d else s
  | none => d

/-- The failure dictionary built by `load_pkg`'s `except` clause. -/
def loadFailure (td repo branch vOrB e : Str) : LoadResult :=
  ⟨false, strL "Failed to load repository: " ++ e, some td, some repo, some branch,
    some vOrB, some e⟩

/-- The success dictionary of `load_pkg`. -/
def loadSuccess (td repo branch actual : Str) : LoadResult :=
  ⟨true,
    strL "Successfully loaded repository from " ++ repo ++ strL " (branch: " ++ branch ++ strL ")",
    some td, some repo, some branch, some actual, none⟩

/-- The message of the early `No tag found` failure dictionary. -/
def noTagMessage (v : Str) : Str := strL "No tag found matching version " ++ v

/-- Default target directory (load.py lines 60-69): repository name from the
URL (rstrip `/`, last `/` segment, drop a `.git` suffix), with a `-branch`
suffix for non-default branches. -/
def defaultTargetDir (repo branch : Str) : Str :=
  let repo_name := (splitOnChar '/' (rstripChar '/' repo)).getLastD []
  let repo_name :=
    if endsWithStr (strL ".git") repo_name then repo_name.take (repo_name.length - 4)
    else repo_name
  if branch ∉ [strL "main", strL "master"] then repo_name ++ '-' :: branch else repo_name

/-- Branch checkout performed when no version is requested (load.py lines
121-126): checkout an existing local branch, else create it from
`origin/branch` if that ref exists, else leave the tree as is. -/
def branchCheckout (td repo branch : Str) (env : LoadEnv) : Sum LoadResult Str :=
  if branch ∈ env.heads then
    match env.checkoutErr branch with
    | some e => Sum.inl (loadFailure td repo branch branch e)
    | none => Sum.inr branch
  else if (strL "origin/" ++ branch) ∈ env.refs then
    match env.checkoutErr branch with
    | some e => Sum.inl (loadFailure td repo branch branch e)
    | none => Sum.inr branch
  else Sum.inr branch

/-- The version dispatch of `load_pkg` (lines 90-126): `Sum.inl` is an early
return dictionary, `Sum.inr` the resolved `actual_version` after checkout. -/
def resolveVersion (td repo : Str) (version : Option Str) (branch : Str) (env : LoadEnv) :
    Sum LoadResult Str :=
  match version with
  | some v =>
    if v = [] then branchCheckout td repo branch env
    else if v = strL "latest" then
      match _find_latest_tag env.tags with
      | some t =>
        match env.checkoutErr t with
        | some e => Sum.inl (loadFailure td repo branch v e)
        | none => Sum.inr t
      | none => Sum.inr env.activeBranch
    else if isDirectRef v then
      match env.checkoutErr v with
      | some e => Sum.inl (loadFailure td repo branch v e)
      | none => Sum.inr v
    else
      match _find_matching_tag env.tags v with
      | some t =>
        match env.checkoutErr t with
        | some e => Sum.inl (loadFailure td repo branch v e)
        | none => Sum.inr t
      | none => Sum.inl ⟨false, noTagMessage v, none, none, none, none, none⟩
  | none => branchCheckout td repo branch env

/-- The body of `load_pkg`'s `try` block (lines 80-171), given that the
pre-`try` cleanup did not raise. -/
def load_pkg_try (repo : Str) (version : Option Str) (td branch : Str)
    (use_symlink : Bool) (env : LoadEnv) : LoadResult :=
  match env.cloneErr with
  | some e => loadFailure td repo branch (orElseStr version branch) e
  | none =>
    match resolveVersion td repo version branch env with
    | Sum.inl d => d
    | Sum.inr actual =>
      match (if use_symlink then env.symlinkErr else env.copyErr) with
      | some e => loadFailure td repo branch (orElseStr version branch) e
      | none => loadSuccess td repo branch actual

/-- `load_pkg` (load.py lines 17-171).  The pre-`try` part validates the
repository URL, computes the default target directory and, when `clean` is
set and the target exists, removes it — an exception raised there escapes
(`PyOutcome.exn`); everything after is wrapped in `try/except`. -/
def load_pkg (repo : Option Str) (version : Option Str) (target_dir : Option Str)
    (branch : Str) (clean : Bool) (use_symlink : Bool) (env : LoadEnv) :
    PyOutcome LoadResult :=
  match repo with
  | none => PyOutcome.ret ⟨false, strL "Repository URL is required", none, none, none, none, none⟩
  | some r =>
    if r = [] then
      PyOutcome.ret ⟨false, strL "Repository URL is required", none, none, none, none, none⟩
    else
      let td := match target_dir with
        | some t => t
        | none => defaultTargetDir r branch
      if clean ∧ env.targetExists then
        match env.rmtreeErr with
        | some e => PyOutcome.exn e
        | none => PyOutcome.ret (load_pkg_try r version td branch use_symlink env)
      else PyOutcome.ret (load_pkg_try r version td branch use_symlink env)

/-! ### Tag-name construction (`create_tag`, tag.py lines 56-77) -/

/-- Tag-name construction of `create_tag` when driven by package metadata:
optional root-directory segment (skipped when falsy or `.`), optional branch
segment (skipped when falsy or equal to the default branch), then the version
with leading `v` characters stripped, joined with `/`. -/
def createTagName (root_dir : Option Str) (branch : Str) (default_branch : Str)
    (version : Str) : Str :=
  let v := version.dropWhile (· = 'v')
  let rootParts := match root_dir with
    | some r => if r ≠ [] ∧ r ≠ strL "." then [stripChar '/' r] else []
    | none => []
  let branchParts := if branch ≠ [] ∧ branch ≠ default_branch then [branch] else []
  joinChar '/' (rootParts ++ branchParts ++ [v])

/-- The tag name as the specification describes it: the `/`-join of the
root directory trimmed of slashes (omitted when absent, empty or `.`), the
branch (omitted when it equals the default branch), and the version with its
leading `v` stripped. -/
def specTagName (root_dir : Option Str) (branch : Str) (default_branch : Str)
    (version : Str) : Str :=
  joinChar '/'
    ((if root_dir = none ∨ root_dir = some [] ∨ root_dir = some (strL ".") then []
      else [stripChar '/' (root_dir.getD [])]) ++
     (if branch = default_branch then [] else [branch]) ++
     [version.dropWhile (· = 'v')])

/-! ### Tag lifecycle (`create_tag`, tag.py lines 83-149) -/

/-- Repository state seen by `create_tag`: the tag list (name, target commit)
and the current `HEAD` commit. -/
structure TagRepoState where
  tags : List (Str × Nat)
  head : Nat
deriving DecidableEq

/-- Effect environment of `create_tag`. -/
structure TagEnv where
  /-- Error raised while obtaining the cached repository, if any. -/
  cloneErr : Option Str
  /-- Error raised by the push, if any. -/
  pushErr : Option Str
deriving DecidableEq

/-- The result dictionary of `create_tag`. -/
structure TagResult where
  success : Bool
  message : Str
  action : Option Str
  tag_name : Option Str
  error : Option Str
deriving DecidableEq

/-- Commit a tag name resolves to (tag names are unique in git; lookup of the
most recently created binding). -/
def lookupTag (st : TagRepoState) (name : Str) : Option Nat :=
  ((st.tags.filter (fun p => p.1 = name)).getLast?).map Prod.snd

/-- `create_tag` (tag.py lines 83-149) with an explicit tag name (the
metadata-driven name construction is `createTagName`).  Returns the result
dictionary and the resulting repository state. -/
def create_tag (repo_url : Option Str) (tag_name : Option Str) (force push : Bool)
    (env : TagEnv) (st : TagRepoState) : TagResult × TagRepoState :=
  match repo_url with
  | none => (⟨false, strL "Repository URL is required", none, none, none⟩, st)
  | some r =>
    if r = [] then (⟨false, strL "Repository URL is required", none, none, none⟩, st)
    else
      match tag_name with
      | none => (⟨false, strL "Tag name is required", none, none, none⟩, st)
      | some name =>
        if name = [] then (⟨false, strL "Tag name is required", none, none, none⟩, st)
        else
          match env.cloneErr with
          | some e =>
            (⟨false, strL "Failed to create tag: " ++ e, none, none, some e⟩, st)
          | none =>
            let tag_exists := name ∈ st.tags.map Prod.fst
            if tag_exists ∧ ¬ force then
              (⟨false,
                strL "Tag '" ++ name ++ strL "' already exists. Use force=True to overwrite.",
                none, none, none⟩, st)
            else
              let st₁ :=
                if tag_exists then
                  { st with tags := st.tags.filter (fun p => p.1 ≠ name) }
                else st
              let st₂ := { st₁ with tags := st₁.tags ++ [(name, st.head)] }
              let action := if tag_exists then strL "updated" else strL "created"
              if push then
                match env.pushErr with
                | some e =>
                  (⟨false, strL "Failed to create tag: " ++ e, none, none, some e⟩, st₂)
                | none =>
                  (⟨true, strL "Tag '" ++ name ++ strL "' pushed", some (strL "pushed"),
                    some name, none⟩, st₂)
              else
                (⟨true, strL "Tag '" ++ name ++ strL "' " ++ action, some action,
                  some name, none⟩, st₂)

/-! ### `publish_pkg` (publish.py lines 15-177) -/

/-- Inputs and effect outcomes of one `publish_pkg` run. -/
structure PubEnv where
  /-- Whether the metadata file exists. -/
  metaExists : Bool
  /-- `db-repo` of the package metadata. -/
  dbRepo : Option Str
  /-- Package name. -/
  pkgName : Str
  /-- Package version, if any. -/
  pkgVersion : Option Str
  /-- Path of the cached repository working copy. -/
  repoPath : Str
  /-- Error raised by `get_cache` / `clone_or_update`, if any. -/
  cloneErr : Option Str
  /-- Error raised by the branch checkout / creation block, if any. -/
  branchErr : Option Str
  /-- Error raised while copying the package files, if any. -/
  copyErr : Option Str
  /-- `git_repo.is_dirty()` after staging the copied files. -/
  dirtyAfterCopy : Bool
  /-- Error raised by the push, if any. -/
  pushErr : Option Str
  /-- Result of `tag_pkg`, as (success, message, tag name). -/
  tagSuccess : Bool
  tagMessage : Str
  tagName : Str
  /-- Id of the commit created when there are changes. -/
  newCommit : Nat
deriving DecidableEq

/-- Commit history of the cached repository (the observable the no-new-commit
property is about). -/
structure RepoHistory where
  commits : List Nat
deriving DecidableEq

/-- The result dictionary of `publish_pkg`. -/
structure PubResult where
  success : Bool
  message : Str
  repo_path : Option Str
  commit_message : Option Str
  pushed : Option Bool
  tag_result : Option (Bool × Str × Str)
  error : Option Str
deriving DecidableEq

/-- `publish_pkg` (publish.py lines 15-177): load metadata, copy the package
tree into the mirror, stage, and — when nothing is dirty — return success with
the explicit `No changes to commit` message and no commit; otherwise commit,
optionally push and tag. -/
def publish_pkg (pkg_dir meta_file : Str) (commit_message : Option Str)
    (push tag : Bool) (env : PubEnv) (st : RepoHistory) : PubResult × RepoHistory :=
  if ¬ env.metaExists then
    (⟨false, strL "Meta file not found: " ++ pkg_dir ++ '/' :: meta_file,
      none, none, none, none, none⟩, st)
  else
    match env.dbRepo with
    | none =>
      (⟨false, strL "No 'db-repo' found in package metadata", none, none, none, none, none⟩, st)
    | some _ =>
      let cm := match commit_message with
        | some m => m
        | none =>
          strL "Update " ++ env.pkgName ++
            (match env.pkgVersion with
             | some v => strL " v" ++ v
             | none => [])
      match env.cloneErr with
      | some e =>
        (⟨false, strL "Failed to publish package: " ++ e, none, none, none, none, some e⟩, st)
      | none =>
        match env.branchErr with
        | some e =>
          (⟨false, strL "Failed to publish package: " ++ e, none, none, none, none, some e⟩, st)
        | none =>
          match env.copyErr with
          | some e =>
            (⟨false, strL "Failed to publish package: " ++ e, none, none, none, none, some e⟩,
              st)
          | none =>
            if ¬ env.dirtyAfterCopy then
              (⟨true, strL "No changes to commit", some env.repoPath,
                some (strL "No changes to commit"), some false, none, none⟩, st)
            else
              let st' : RepoHistory := ⟨st.commits ++ [env.newCommit]⟩
              match (if push then env.pushErr else none) with
              | some e =>
                (⟨false, strL "Failed to publish package: " ++ e, none, none, none, none,
                  some e⟩, st')
              | none =>
                let pushed := push
                if tag ∧ env.pkgVersion.isSome then
                  if ¬ env.tagSuccess then
                    (⟨false,
                      strL "Commit successful but tagging failed: " ++ env.tagMessage,
                      some env.repoPath, some cm, some pushed,
                      some (false, env.tagMessage, env.tagName), none⟩, st')
                  else
                    (⟨true,
                      strL "Successfully published " ++ env.pkgName ++
                        (if pushed then strL ", pushed to remote" else []) ++
                        strL ", tagged as " ++ env.tagName,
                      some env.repoPath, some cm, some pushed,
                      some (true, env.tagMessage, env.tagName), none⟩, st')
                else
                  (⟨true,
                    strL "Successfully published " ++ env.pkgName ++
                      (if pushed then strL ", pushed to remote" else []),
                    some env.repoPath, some cm, some pushed, none, none⟩, st')

/-! ### Claim-side predicates and concrete environments -/

/-- The direct-reference criterion exactly as claim C7 words it: contains `/`
or consists of 6 to 40 lowercase hexadecimal characters. -/
def c7ClaimDirect (v : Str) : Bool :=
  v.contains '/' ||
    (decide (6 ≤ v.length) && decide (v.length ≤ 40) &&
      v.all (fun c => c.isDigit || ('a' ≤ c && c ≤ 'f')))

/-- A cache state whose filesystem contains the mirror for `host/r` (and its
`.git` marker) while the persisted index is empty. -/
def cacheFsNoIndex : CacheFS :=
  ⟨[], [get_repo_path (strL "c") (strL "host/r") none,
        get_repo_path (strL "c") (strL "host/r") none ++ strL "/.git"]⟩

/-- A `load_pkg` environment in which every effect succeeds and the
repository has no tags. -/
def envNoErr : LoadEnv :=
  ⟨[], strL "main", [strL "main"], [], false, none, none, fun _ => none, none, none⟩

/-- A `load_pkg` environment in which removing the existing target directory
raises `Permission denied`. -/
def envRmtreeFail : LoadEnv :=
  ⟨[], strL "main", [strL "main"], [], true, some (strL "Permission denied"), none,
    fun _ => none, none, none⟩

/-! ## Theorems -/

/-! ### Helper lemmas -/

theorem pyReplaceF_fuel (pat rep : Str) :
    ∀ f₁ f₂ s, s.length ≤ f₁ → s.length ≤ f₂ →
      pyReplaceF pat rep f₁ s = pyReplaceF pat rep f₂ s := by
  intro f₁
  induction f₁ with
  | zero =>
    intro f₂ s h₁ _
    have hs : s = [] := List.eq_nil_of_length_eq_zero (Nat.le_zero.mp h₁)
    subst hs
    cases f₂ <;> rfl
  | succ f ih =>
    intro f₂ s h₁ h₂
    cases s with
    | nil => cases f₂ <;> rfl
    | cons c rest =>
      cases f₂ with
      | zero => simp at h₂
      | succ f₂' =>
        simp only [pyReplaceF]
        by_cases hc : (!pat.isEmpty && isPre pat (c :: rest)) = true
        · simp only [hc, if_pos]
          have hpat : 0 < pat.length := by
            have : pat ≠ [] := by
              intro hnil
              subst hnil
              simp at hc
            exact List.length_pos.mpr this
          have h₁' : ((c :: rest).drop pat.length).length ≤ f := by
            simp only [List.length_drop, List.length_cons]
            simp only [List.length_cons] at h₁
            omega
          have h₂' : ((c :: rest).drop pat.length).length ≤ f₂' := by
            simp only [List.length_drop, List.length_cons]
            simp only [List.length_cons] at h₂
            omega
          rw [ih _ _ h₁' h₂']
        · simp only [Bool.not_eq_true] at hc
          simp only [hc, Bool.false_eq_true, if_false]
          have h₁' : rest.length ≤ f := by
            simp only [List.length_cons] at h₁
            omega
          have h₂' : rest.length ≤ f₂' := by
            simp only [List.length_cons] at h₂
            omega
          rw [ih _ _ h₁' h₂']

theorem isPre_append (l t : Str) : isPre l (l ++ t) = true := by
  induction l with
  | nil => rfl
  | cons c cs ih => simp [isPre, ih]

theorem pyReplaceF_pos (pat rep : Str) (f : Nat) (c : Char) (rest : Str)
    (h : (!pat.isEmpty && isPre pat (c :: rest)) = true) :
    pyReplaceF pat rep (f + 1) (c :: rest) =
      rep ++ pyReplaceF pat rep f ((c :: rest).drop pat.length) := by
  simp only [pyReplaceF, h, if_pos]

/-- A `replace` whose pattern matches at the front removes that occurrence and
continues in the remainder. -/
theorem pyReplace_prefix_match (pat rep s : Str) (hp : pat ≠ []) :
    pyReplace pat rep (pat ++ s) = rep ++ pyReplace pat rep s := by
  cases pat with
  | nil => exact absurd rfl hp
  | cons p ps =>
    show pyReplaceF (p :: ps) rep ((p :: ps) ++ s).length ((p :: ps) ++ s) = _
    have hlen : ((p :: ps) ++ s).length = (ps.length + s.length) + 1 := by
      simp [List.length_append]
    rw [hlen]
    rw [show ((p :: ps) ++ s : Str) = p :: (ps ++ s) from rfl]
    rw [pyReplaceF_pos (p :: ps) rep (ps.length + s.length) p (ps ++ s)
      (by
        have := isPre_append (p :: ps) s
        simp only [List.cons_append] at this
        simp [this, List.isEmpty])]
    rw [show (p :: (ps ++ s) : Str).drop (p :: ps).length = s from List.drop_left (p :: ps) s]
    congr 1
    exact pyReplaceF_fuel _ _ _ _ _ (by omega) (le_refl _)

theorem vle_refl (a : List Nat) : vle a a = true := by
  induction a with
  | nil => rfl
  | cons x xs ih => simp [vle, ih]

/-- In a `tagLe`-sorted list, every element is `vle`-below the last one. -/
theorem sorted_tagLe_getLast? :
    ∀ (l : List (Str × List Nat)), List.Sorted tagLe l →
      ∀ p, l.getLast? = some p → ∀ x ∈ l, tagLe x p
  | [], _, p, hp => by simp at hp
  | [a], _, p, hp => by
    intro x hx
    simp at hp hx
    subst hp
    subst hx
    exact vle_refl _
  | a :: b :: t, hs, p, hp => by
    intro x hx
    rw [List.getLast?_cons_cons] at hp
    have hmem : p ∈ b :: t := by
      rcases List.mem_getLast?_eq_getLast (show p ∈ (b :: t).getLast? from hp) with ⟨h, rfl⟩
      exact List.getLast_mem h
    rcases List.mem_cons.mp hx with rfl | hxt
    · exact List.rel_of_sorted_cons hs p hmem
    · exact sorted_tagLe_getLast? (b :: t) hs.of_cons p hp x hxt

/-- Sorting a non-empty list of `(tag, version)` pairs by version and taking
the last entry yields a member whose version bounds every other entry. -/
theorem insertionSort_getLast_max (l : List (Str × List Nat)) (hne : l ≠ []) :
    ∃ p, ((List.insertionSort tagLe l).getLast?) = some p ∧ p ∈ l ∧
      ∀ q ∈ l, vle q.2 p.2 = true := by
  have hperm := List.perm_insertionSort tagLe l
  have hs := List.sorted_insertionSort tagLe l
  have hne' : List.insertionSort tagLe l ≠ [] := by
    intro h
    exact hne (List.eq_nil_of_length_eq_zero (by simpa [h] using hperm.length_eq.symm))
  obtain ⟨p, hp⟩ := Option.isSome_iff_exists.mp (List.getLast?_isSome.mpr hne')
  refine ⟨p, hp, ?_, ?_⟩
  · have : p ∈ List.insertionSort tagLe l := by
      rcases List.mem_getLast?_eq_getLast (show p ∈ (List.insertionSort tagLe l).getLast? from hp)
        with ⟨h, rfl⟩
      exact List.getLast_mem h
    exact hperm.mem_iff.mp this
  · intro q hq
    exact sorted_tagLe_getLast? _ hs p hp q (hperm.mem_iff.mpr hq)

theorem get_cache_key_some (u b : Str) (hb : b ≠ []) (hm : b ∉ [strL "main", strL "master"]) :
    get_cache_key u (some b) = normalizeUrl u ++ '@' :: b := by
  simp only [get_cache_key]
  rw [if_pos ⟨hb, hm⟩]

theorem get_repo_path_inj (cd u : Str) (x y : Option Str)
    (h : get_repo_path cd u x = get_repo_path cd u y) :
    get_cache_key u x = get_cache_key u y := by
  unfold get_repo_path at h
  have := List.append_cancel_left h
  exact (List.cons.inj this).2

/-! ### Claims -/

/-- C1: `get_repo_path` is a pure function of `(url, branch)`; the `main` and
`master` branches share the default mirror path, and any two distinct
(non-empty) non-default branches give paths distinct from each other and from
the default mirror path. -/
theorem claim_C1_repo_path_separation (cache_dir u b1 b2 : Str)
    (h1e : b1 ≠ []) (h2e : b2 ≠ [])
    (h1m : b1 ∉ [strL "main", strL "master"]) (h2m : b2 ∉ [strL "main", strL "master"])
    (hne : b1 ≠ b2) :
    get_repo_path cache_dir u (some (strL "main")) = get_repo_path cache_dir u none
    ∧ get_repo_path cache_dir u (some (strL "master")) = get_repo_path cache_dir u none
    ∧ get_repo_path cache_dir u (some b1) ≠ get_repo_path cache_dir u (some b2)
    ∧ get_repo_path cache_dir u (some b1) ≠ get_repo_path cache_dir u none
    ∧ get_repo_path cache_dir u (some b2) ≠ get_repo_path cache_dir u none := by
  have hk1 := get_cache_key_some u b1 h1e h1m
  have hk2 := get_cache_key_some u b2 h2e h2m
  refine ⟨?_, ?_, ?_, ?_, ?_⟩
  · simp only [get_repo_path, get_cache_key]
    rw [if_neg (by decide)]
  · simp only [get_repo_path, get_cache_key]
    rw [if_neg (by decide)]
  · intro h
    have hk := get_repo_path_inj _ _ _ _ h
    rw [hk1, hk2] at hk
    have := List.append_cancel_left hk
    exact hne (List.cons.inj this).2
  · intro h
    have hk := get_repo_path_inj _ _ _ _ h
    rw [hk1] at hk
    simp only [get_cache_key] at hk
    have : (normalizeUrl u ++ '@' :: b1).length = (normalizeUrl u).length := by rw [hk]
    simp [List.length_append] at this
  · intro h
    have hk := get_repo_path_inj _ _ _ _ h
    rw [hk2] at hk
    simp only [get_cache_key] at hk
    have : (normalizeUrl u ++ '@' :: b2).length = (normalizeUrl u).length := by rw [hk]
    simp [List.length_append] at this

/-- Witness for C1 at concrete url and branches. -/
theorem claim_C1_repo_path_separation_witness :
    get_repo_path (strL "c") (strL "https://h/r") (some (strL "main")) =
        get_repo_path (strL "c") (strL "https://h/r") none
    ∧ get_repo_path (strL "c") (strL "https://h/r") (some (strL "master")) =
        get_repo_path (strL "c") (strL "https://h/r") none
    ∧ get_repo_path (strL "c") (strL "https://h/r") (some (strL "dev")) ≠
        get_repo_path (strL "c") (strL "https://h/r") (some (strL "feat"))
    ∧ get_repo_path (strL "c") (strL "https://h/r") (some (strL "dev")) ≠
        get_repo_path (strL "c") (strL "https://h/r") none
    ∧ get_repo_path (strL "c") (strL "https://h/r") (some (strL "feat")) ≠
        get_repo_path (strL "c") (strL "https://h/r") none :=
  claim_C1_repo_path_separation (strL "c") (strL "https://h/r") (strL "dev") (strL "feat")
    (by decide) (by decide) (by decide) (by decide) (by decide)

/-- C2: for every non-empty list of tags, `_find_latest_tag` returns a tag
whose extracted version is maximal (under the modelled version ordering) among
the tags that parse, ignoring unparsable tags; if no tag parses it returns the
last tag in enumeration order; for an empty tag list it returns `none`. -/
theorem claim_C2_find_latest_maximal (tags : List Str) :
    (tags = [] → _find_latest_tag tags = none)
    ∧ (tags ≠ [] → (∀ t ∈ tags, tagVersion t = none) → _find_latest_tag tags = tags.getLast?)
    ∧ (∀ t₀ v₀, t₀ ∈ tags → tagVersion t₀ = some v₀ →
        ∃ t v, _find_latest_tag tags = some t ∧ t ∈ tags ∧ tagVersion t = some v ∧
          ∀ u w, u ∈ tags → tagVersion u = some w → vle w v = true) := by
  refine ⟨?_, ?_, ?_⟩
  · rintro rfl
    rfl
  · intro hne hall
    unfold _find_latest_tag
    rw [if_neg (by simpa [List.isEmpty_iff] using hne)]
    have hvt : tags.filterMap (fun t => (tagVersion t).map (fun v => (t, v))) = [] := by
      rw [List.filterMap_eq_nil_iff]
      intro t ht
      rw [hall t ht]
      rfl
    simp only [hvt, List.isEmpty_nil, if_pos]
  · intro t₀ v₀ ht₀ hv₀
    have hne : tags ≠ [] := by
      rintro rfl
      simp at ht₀
    unfold _find_latest_tag
    rw [if_neg (by simpa [List.isEmpty_iff] using hne)]
    have hmem₀ : (t₀, v₀) ∈ tags.filterMap (fun t => (tagVersion t).map (fun v => (t, v))) :=
      List.mem_filterMap.mpr ⟨t₀, ht₀, by rw [hv₀]; rfl⟩
    have hvtne : tags.filterMap (fun t => (tagVersion t).map (fun v => (t, v))) ≠ [] := by
      intro h
      rw [h] at hmem₀
      simp at hmem₀
    rw [if_neg (by simpa [List.isEmpty_iff] using hvtne)]
    obtain ⟨p, hp, hpmem, hmax⟩ := insertionSort_getLast_max _ hvtne
    obtain ⟨a, ha, hfa⟩ := List.mem_filterMap.mp hpmem
    obtain ⟨v, hv, hav⟩ := Option.map_eq_some'.mp hfa
    subst hav
    refine ⟨a, v, by rw [hp]; rfl, ha, hv, ?_⟩
    intro u w hu hw
    simpa using hmax (u, w) (List.mem_filterMap.mpr ⟨u, hu, by rw [hw]; rfl⟩)

/-- Witness for C2 at a concrete tag list containing an unparsable tag. -/
theorem claim_C2_find_latest_maximal_witness :
    ∃ t v,
      _find_latest_tag [strL "v0.9.0", strL "not-a-version", strL "v1.1.0"] = some t ∧
        t ∈ [strL "v0.9.0", strL "not-a-version", strL "v1.1.0"] ∧ tagVersion t = some v ∧
        ∀ u w, u ∈ [strL "v0.9.0", strL "not-a-version", strL "v1.1.0"] →
          tagVersion u = some w → vle w v = true :=
  (claim_C2_find_latest_maximal [strL "v0.9.0", strL "not-a-version", strL "v1.1.0"]).2.2
    (strL "v0.9.0") [0, 9, 0] (by decide) (by decide)

/-- C10: the cache-key normalisation is not injective: prefixing a URL with
`https://` or `http://` yields the same key for every suffix and branch, and
the distinct URLs `host/x` and `host:x` share one cache key and hence one
mirror path. -/
theorem claim_C10_cache_key_collisions :
    (∀ (s : Str) (b : Option Str),
      get_cache_key (strL "https://" ++ s) b = get_cache_key (strL "http://" ++ s) b)
    ∧ (strL "host/x" ≠ strL "host:x"
        ∧ get_cache_key (strL "host/x") none = get_cache_key (strL "host:x") none
        ∧ get_repo_path (strL "c") (strL "host/x") none =
            get_repo_path (strL "c") (strL "host:x") none) := by
  constructor
  · intro s b
    have hnorm : normalizeUrl (strL "https://" ++ s) = normalizeUrl (strL "http://" ++ s) := by
      unfold normalizeUrl
      have h1 : pyReplace (strL "https://") [] (strL "https://" ++ s) =
          pyReplace (strL "https://") [] s :=
        pyReplace_prefix_match _ _ _ (by decide)
      have h2 : pyReplace (strL "https://") [] (strL "http://" ++ s) =
          strL "http://" ++ pyReplace (strL "https://") [] s := rfl
      have h3 : pyReplace (strL "http://") []
          (strL "http://" ++ pyReplace (strL "https://") [] s) =
          pyReplace (strL "http://") [] (pyReplace (strL "https://") [] s) :=
        pyReplace_prefix_match _ _ _ (by decide)
      rw [h1, h2, h3]
    simp only [get_cache_key]
    rw [hnorm]
  · exact ⟨by decide, by decide, by decide⟩

/-- C3: `_find_matching_tag` parses the constraint as a set of comparator
clauses and returns the tag with the maximum valid version satisfying all of
them, or `none` when no valid-version tag satisfies them; and `load_pkg`, asked
for a constraint no tag matches, returns a failure result whose message names
the constraint.  Includes the specification's concrete examples. -/
theorem claim_C3_find_matching (tags : List Str) (spec : Str) :
    (∀ clauses, parseSpecifierSet spec = some clauses →
      (∀ t, _find_matching_tag tags spec = some t →
        ∃ v, t ∈ tags ∧ tagVersion t = some v ∧ satisfiesAll clauses v = true ∧
          ∀ u w, u ∈ tags → tagVersion u = some w → satisfiesAll clauses w = true →
            vle w v = true)
      ∧ (_find_matching_tag tags spec = none →
          ∀ u w, u ∈ tags → tagVersion u = some w → satisfiesAll clauses w = false))
    ∧ (∀ (repo td branch : Str) (use_symlink : Bool) (env : LoadEnv),
        repo ≠ [] → spec ≠ [] → spec ≠ strL "latest" → isDirectRef spec = false →
        env.cloneErr = none → _find_matching_tag env.tags spec = none →
        load_pkg (some repo) (some spec) (some td) branch false use_symlink env =
          PyOutcome.ret ⟨false, noTagMessage spec, none, none, none, none, none⟩)
    ∧ _find_matching_tag [strL "v0.9.0", strL "v1.0.0", strL "v1.1.0"] (strL ">=1.0.0,<1.1.0")
        = some (strL "v1.0.0")
    ∧ _find_matching_tag [strL "v0.9.0", strL "v1.0.0", strL "v1.1.0"] (strL ">=2.0.0")
        = none := by
  refine ⟨?_, ?_, by decide, by decide⟩
  · intro clauses hclauses
    constructor
    · intro t ht
      unfold _find_matching_tag at ht
      by_cases hemp : tags.isEmpty
      · rw [if_pos hemp] at ht
        exact absurd ht (by simp)
      · rw [if_neg hemp, hclauses] at ht
        dsimp only at ht
        set valid_tags := tags.filterMap (fun t =>
          (tagVersion t).bind (fun v => if satisfiesAll clauses v then some (t, v) else none))
          with hvt
        by_cases hvemp : valid_tags.isEmpty
        · rw [if_pos hvemp] at ht
          exact absurd ht (by simp)
        · rw [if_neg hvemp] at ht
          have hvne : valid_tags ≠ [] := by
            intro h
            rw [h] at hvemp
            simp at hvemp
          obtain ⟨p, hp, hpmem, hmax⟩ := insertionSort_getLast_max _ hvne
          rw [hp] at ht
          simp only [Option.map_some'] at ht
          obtain ⟨a, ha, hfa⟩ := List.mem_filterMap.mp hpmem
          obtain ⟨v, hv, hif⟩ := Option.bind_eq_some.mp hfa
          by_cases hsat : satisfiesAll clauses v = true
          · rw [if_pos hsat] at hif
            have hav : (a, v) = p := by injection hif
            subst hav
            obtain rfl : a = t := by injection ht
            refine ⟨v, ha, hv, hsat, ?_⟩
            intro u w hu hw hwsat
            simpa using hmax (u, w) (List.mem_filterMap.mpr ⟨u, hu, by rw [hw]; simp [hwsat]⟩)
          · rw [if_neg hsat] at hif
            exact absurd hif (by simp)
    · intro hnone u w hu hw
      cases hsat : satisfiesAll clauses w with
      | false => rfl
      | true =>
        exfalso
        unfold _find_matching_tag at hnone
        have hemp : tags.isEmpty = false := by
          cases tags
          · simp at hu
          · rfl
        rw [hemp] at hnone
        simp only [Bool.false_eq_true, if_false] at hnone
        rw [hclauses] at hnone
        dsimp only at hnone
        have hmem : (u, w) ∈ tags.filterMap (fun t =>
            (tagVersion t).bind (fun v => if satisfiesAll clauses v then some (t, v) else none)) :=
          List.mem_filterMap.mpr ⟨u, hu, by rw [hw]; simp [hsat]⟩
        have hvne : tags.filterMap (fun t =>
            (tagVersion t).bind (fun v => if satisfiesAll clauses v then some (t, v) else none))
            ≠ [] := by
          intro h
          rw [h] at hmem
          simp at hmem
        rw [if_neg (by simpa [List.isEmpty_iff] using hvne)] at hnone
        obtain ⟨p, hp, _, _⟩ := insertionSort_getLast_max _ hvne
        rw [hp] at hnone
        simp at hnone
  · intro repo td branch use_symlink env hrepo hspec hlatest hdirect hclone hmatch
    unfold load_pkg
    dsimp only
    rw [if_neg hrepo]
    have hcond : ¬ ((false = true) ∧ env.targetExists = true) := by simp
    rw [if_neg hcond]
    unfold load_pkg_try resolveVersion
    rw [hclone]
    dsimp only
    rw [if_neg hspec, if_neg hlatest]
    rw [if_neg (by rw [hdirect]; exact Bool.false_ne_true)]
    rw [hmatch]

/-- Witness for C3: resolving `>=2.0.0` against tags v0.9.0 / v1.0.0 / v1.1.0
fails with the not-found message naming the constraint. -/
theorem claim_C3_find_matching_witness :
    load_pkg (some (strL "h/r")) (some (strL ">=2.0.0")) (some (strL "t")) (strL "main")
        false false
        { envNoErr with tags := [strL "v0.9.0", strL "v1.0.0", strL "v1.1.0"] } =
      PyOutcome.ret ⟨false, noTagMessage (strL ">=2.0.0"), none, none, none, none, none⟩ :=
  (claim_C3_find_matching [strL "v0.9.0", strL "v1.0.0", strL "v1.1.0"] (strL ">=2.0.0")).2.1
    (strL "h/r") (strL "t") (strL "main") false
    { envNoErr with tags := [strL "v0.9.0", strL "v1.0.0", strL "v1.1.0"] }
    (by decide) (by decide) (by decide) (by decide) rfl (by decide)

/-- C4: the tag name built by `create_tag` is the `/`-join of the root
directory trimmed of slashes (omitted when absent or `.`), the branch (omitted
when it equals the default branch; branch names are non-empty), and the
version with its leading `v` characters stripped — including the
specification's three concrete examples. -/
theorem claim_C4_tag_name (root_dir : Option Str) (branch default_branch version : Str)
    (hb : branch ≠ []) :
    createTagName root_dir branch default_branch version =
      specTagName root_dir branch default_branch version
    ∧ createTagName (some (strL ".")) (strL "main") (strL "main") (strL "1.0.0") = strL "1.0.0"
    ∧ createTagName (some (strL "lib")) (strL "main") (strL "main") (strL "1.0.0") =
        strL "lib/1.0.0"
    ∧ createTagName (some (strL "lib")) (strL "dev") (strL "main") (strL "1.0.0") =
        strL "lib/dev/1.0.0" := by
  refine ⟨?_, by decide, by decide, by decide⟩
  unfold createTagName specTagName
  dsimp only
  have hbranch : (if branch ≠ [] ∧ branch ≠ default_branch then [branch] else []) =
      (if branch = default_branch then ([] : List Str) else [branch]) := by
    by_cases hbd : branch = default_branch
    · simp [hbd]
    · simp [hbd, hb]
  have hroot : (match root_dir with
      | some r => if r ≠ [] ∧ r ≠ strL "." then [stripChar '/' r] else []
      | none => ([] : List Str)) =
      (if root_dir = none ∨ root_dir = some [] ∨ root_dir = some (strL ".") then []
       else [stripChar '/' (root_dir.getD [])]) := by
    cases root_dir with
    | none => simp
    | some r =>
      dsimp only
      by_cases h1 : r = []
      · subst h1
        simp
      · by_cases h2 : r = strL "."
        · subst h2
          simp
        · rw [if_pos ⟨h1, h2⟩, if_neg (by simp [h1, h2])]
          simp
  rw [hbranch, hroot]

/-- Witness for C4 at concrete segments. -/
theorem claim_C4_tag_name_witness :
    createTagName (some (strL "src")) (strL "dev") (strL "main") (strL "v2.3.4") =
      specTagName (some (strL "src")) (strL "dev") (strL "main") (strL "v2.3.4")
    ∧ createTagName (some (strL ".")) (strL "main") (strL "main") (strL "1.0.0") = strL "1.0.0"
    ∧ createTagName (some (strL "lib")) (strL "main") (strL "main") (strL "1.0.0") =
        strL "lib/1.0.0"
    ∧ createTagName (some (strL "lib")) (strL "dev") (strL "main") (strL "1.0.0") =
        strL "lib/dev/1.0.0" :=
  claim_C4_tag_name (some (strL "src")) (strL "dev") (strL "main") (strL "v2.3.4") (by decide)

theorem resolveVersion_cases (td repo : Str) (version : Option Str) (branch : Str)
    (env : LoadEnv) :
    (∃ vOrB e, resolveVersion td repo version branch env =
        Sum.inl (loadFailure td repo branch vOrB e))
    ∨ (∃ v, version = some v ∧ resolveVersion td repo version branch env =
        Sum.inl ⟨false, noTagMessage v, none, none, none, none, none⟩)
    ∨ (∃ actual, resolveVersion td repo version branch env = Sum.inr actual) := by
  unfold resolveVersion branchCheckout
  repeat' split
  all_goals
    first
      | exact Or.inl ⟨_, _, rfl⟩
      | exact Or.inr (Or.inr ⟨_, rfl⟩)
      | (refine Or.inr (Or.inl ⟨_, ?_, rfl⟩); first | assumption | rfl)

theorem load_pkg_try_cases (repo : Str) (version : Option Str) (td branch : Str)
    (use_symlink : Bool) (env : LoadEnv) :
    (∃ actual, load_pkg_try repo version td branch use_symlink env =
        loadSuccess td repo branch actual)
    ∨ (∃ vOrB e, load_pkg_try repo version td branch use_symlink env =
        loadFailure td repo branch vOrB e)
    ∨ (∃ v, version = some v ∧ load_pkg_try repo version td branch use_symlink env =
        ⟨false, noTagMessage v, none, none, none, none, none⟩) := by
  unfold load_pkg_try
  cases hclone : env.cloneErr with
  | some e => exact Or.inr (Or.inl ⟨_, _, rfl⟩)
  | none =>
    rcases resolveVersion_cases td repo version branch env with ⟨vOrB, e, hr⟩ | ⟨v, hv, hr⟩ |
        ⟨actual, hr⟩ <;> rw [hr] <;> dsimp only
    · exact Or.inr (Or.inl ⟨_, _, rfl⟩)
    · exact Or.inr (Or.inr ⟨v, hv, rfl⟩)
    · cases hm : (if use_symlink then env.symlinkErr else env.copyErr) with
      | some e => exact Or.inr (Or.inl ⟨_, _, rfl⟩)
      | none => exact Or.inl ⟨_, rfl⟩

theorem append_ne_nil_left (a b : Str) (h : a ≠ []) : a ++ b ≠ [] := by
  simp [List.append_eq_nil, h]

/-- C5 (amended): provided the pre-`try` target-directory cleanup does not
raise (i.e. for `clean=true` with an existing target, `shutil.rmtree`
succeeds), `load_pkg` always returns a structured result dictionary with a
non-empty message; a failure either carries the triggering error, or is one of
the two message-only early failures (missing repository URL, no matching
tag). -/
theorem claim_C5_structured_result (repo version target_dir : Option Str) (branch : Str)
    (clean use_symlink : Bool) (env : LoadEnv)
    (hclean : clean = true → env.targetExists = true → env.rmtreeErr = none) :
    ∃ d, load_pkg repo version target_dir branch clean use_symlink env = PyOutcome.ret d ∧
      d.message ≠ [] ∧
      (d.success = false →
        d.error.isSome = true ∨ d.message = strL "Repository URL is required" ∨
          ∃ v, version = some v ∧ d.message = noTagMessage v) := by
  have htry : ∀ (r td : Str),
      (load_pkg_try r version td branch use_symlink env).message ≠ [] ∧
        ((load_pkg_try r version td branch use_symlink env).success = false →
          (load_pkg_try r version td branch use_symlink env).error.isSome = true ∨
          (load_pkg_try r version td branch use_symlink env).message =
            strL "Repository URL is required" ∨
          ∃ v, version = some v ∧
            (load_pkg_try r version td branch use_symlink env).message = noTagMessage v) := by
    intro r td
    rcases load_pkg_try_cases r version td branch use_symlink env with
      ⟨a, h⟩ | ⟨vb, e, h⟩ | ⟨v, hv, h⟩ <;> rw [h]
    · refine ⟨?_, ?_⟩
      · intro hnil
        simp only [loadSuccess] at hnil
        have h1 := (List.append_eq_nil.mp hnil).1
        have h2 := (List.append_eq_nil.mp h1).1
        have h3 := (List.append_eq_nil.mp h2).1
        have h4 := (List.append_eq_nil.mp h3).1
        exact absurd h4 (by decide)
      · intro hfalse
        simp [loadSuccess] at hfalse
    · refine ⟨?_, ?_⟩
      · exact append_ne_nil_left _ _ (by decide)
      · intro _
        exact Or.inl rfl
    · refine ⟨?_, ?_⟩
      · exact append_ne_nil_left _ _ (by decide)
      · intro _
        exact Or.inr (Or.inr ⟨v, hv, rfl⟩)
  unfold load_pkg
  cases repo with
  | none => exact ⟨_, rfl, by decide, fun _ => Or.inr (Or.inl rfl)⟩
  | some r =>
    dsimp only
    by_cases hr : r = []
    · rw [if_pos hr]
      exact ⟨_, rfl, by decide, fun _ => Or.inr (Or.inl rfl)⟩
    · rw [if_neg hr]
      by_cases hc : clean = true ∧ env.targetExists = true
      · rw [if_pos hc, hclean hc.1 hc.2]
        exact ⟨_, rfl, (htry r _).1, (htry r _).2⟩
      · rw [if_neg hc]
        exact ⟨_, rfl, (htry r _).1, (htry r _).2⟩

/-- Witness for C5 (amended). -/
theorem claim_C5_structured_result_witness :
    ∃ d, load_pkg (some (strL "https://h/r")) (some (strL "latest")) none (strL "main")
        false false envNoErr = PyOutcome.ret d ∧ d.message ≠ [] ∧
        (d.success = false →
          d.error.isSome = true ∨ d.message = strL "Repository URL is required" ∨
            ∃ v, (some (strL "latest") : Option Str) = some v ∧ d.message = noTagMessage v) :=
  claim_C5_structured_result (some (strL "https://h/r")) (some (strL "latest")) none
    (strL "main") false false envNoErr (by simp)

/-- C5 counterexample: with `clean=true`, an existing target directory and a
failing `shutil.rmtree`, `load_pkg` raises past its boundary instead of
returning a failure result (the cleanup happens before the `try` block). -/
theorem claim_C5_counterexample :
    load_pkg (some (strL "https://h/r")) none none (strL "main") true false envRmtreeFail =
      PyOutcome.exn (strL "Permission denied") := by decide

/-- C6 counterexample: a state whose filesystem holds the mirror and its
`.git` marker while the persisted index is empty — `has_repo` answers `true`
although the index has no entry for the cache key, refuting "cached iff in the
index". -/
theorem claim_C6_counterexample :
    has_repo (strL "c") cacheFsNoIndex (strL "host/r") none = true ∧
      indexLookup cacheFsNoIndex (get_cache_key (strL "host/r") none) = none ∧
      cacheFsNoIndex.index = [] := by decide

/-- C6 (corrected): whether a repository is cached is decided by the
filesystem, not the persisted index — `has_repo(url, branch)` is true iff the
mirror path exists and contains a `.git` marker, and its value is independent
of the index contents. -/
theorem claim_C6_amended (cache_dir u : Str) (b : Option Str) (fs fs' : CacheFS)
    (hfs : fs.fsPaths = fs'.fsPaths) :
    (has_repo cache_dir fs u b = true ↔
      get_repo_path cache_dir u b ∈ fs.fsPaths ∧
        get_repo_path cache_dir u b ++ strL "/.git" ∈ fs.fsPaths)
    ∧ has_repo cache_dir fs u b = has_repo cache_dir fs' u b := by
  constructor
  · simp [has_repo]
  · simp [has_repo, hfs]

/-- Witness for the amended C6. -/
theorem claim_C6_amended_witness :
    (has_repo (strL "c") cacheFsNoIndex (strL "host/r") none = true ↔
      get_repo_path (strL "c") (strL "host/r") none ∈ cacheFsNoIndex.fsPaths ∧
        get_repo_path (strL "c") (strL "host/r") none ++ strL "/.git" ∈ cacheFsNoIndex.fsPaths)
    ∧ has_repo (strL "c") cacheFsNoIndex (strL "host/r") none =
        has_repo (strL "c") cacheFsNoIndex (strL "host/r") none :=
  claim_C6_amended (strL "c") (strL "host/r") none cacheFsNoIndex cacheFsNoIndex rfl

/-- C7 counterexample: `ABCDEF` contains no `/` and is not 6-40 *lowercase*
hex, yet the code treats it as a direct reference (the regex is compiled with
`re.IGNORECASE`): `load_pkg` checks it out verbatim and reports it as the
resolved version. -/
theorem claim_C7_counterexample :
    isDirectRef (strL "ABCDEF") = true ∧ c7ClaimDirect (strL "ABCDEF") = false ∧
      load_pkg (some (strL "h/r")) (some (strL "ABCDEF")) (some (strL "t")) (strL "main")
          false false envNoErr =
        PyOutcome.ret (loadSuccess (strL "t") (strL "h/r") (strL "main") (strL "ABCDEF")) := by
  decide

/-- C7 (corrected): a version request other than `latest` is treated as a
direct reference iff it contains a `/` or consists of 6 to 40 hexadecimal
characters of either case (optionally followed by one trailing newline, an
artifact of `$` in `re.match`); on the direct path `load_pkg` checks the
string out verbatim. -/
theorem claim_C7_direct_reference (v : Str) :
    (isDirectRef v = true ↔
      ('/' ∈ v ∨ hexRun v = true ∨ ∃ s, v = s ++ ['\n'] ∧ hexRun s = true))
    ∧ (∀ (repo td branch : Str) (use_symlink : Bool) (env : LoadEnv),
        repo ≠ [] → v ≠ [] → v ≠ strL "latest" → isDirectRef v = true →
        env.cloneErr = none → env.checkoutErr v = none →
        (if use_symlink then env.symlinkErr else env.copyErr) = none →
        load_pkg (some repo) (some v) (some td) branch false use_symlink env =
          PyOutcome.ret (loadSuccess td repo branch v)) := by
  constructor
  · unfold isDirectRef _is_commit_sha
    constructor
    · intro h
      simp only [Bool.or_eq_true] at h
      rcases h with hc | hr | h
      · exact Or.inl (List.elem_iff.mp hc)
      · exact Or.inr (Or.inl hr)
      · cases hv : v.getLast? with
          | none =>
            rw [hv] at h
            simp at h
          | some c =>
            rw [hv] at h
            dsimp only at h
            by_cases hcn : c = '\n'
            · rw [if_pos hcn] at h
              subst hcn
              obtain ⟨hne, hc⟩ := List.mem_getLast?_eq_getLast
                (show '\n' ∈ v.getLast? from hv)
              refine Or.inr (Or.inr ⟨v.dropLast, ?_, h⟩)
              conv_lhs => rw [← List.dropLast_concat_getLast hne]
              rw [← hc]
            · rw [if_neg hcn] at h
              exact absurd h (by simp)
    · intro h
      simp only [Bool.or_eq_true]
      rcases h with hc | hr | ⟨s, hs, hrun⟩
      · exact Or.inl (List.elem_iff.mpr hc)
      · exact Or.inr (Or.inl hr)
      · refine Or.inr (Or.inr ?_)
        subst hs
        rw [List.getLast?_concat]
        dsimp only
        rw [if_pos rfl, List.dropLast_concat]
        exact hrun
  · intro repo td branch use_symlink env hrepo hv hlatest hdirect hclone hcheckout hmat
    unfold load_pkg
    dsimp only
    rw [if_neg hrepo]
    have hcond : ¬ ((false = true) ∧ env.targetExists = true) := by simp
    rw [if_neg hcond]
    unfold load_pkg_try resolveVersion
    rw [hclone]
    dsimp only
    rw [if_neg hv, if_neg hlatest, if_pos hdirect, hcheckout]
    dsimp only
    rw [hmat]

/-- Witness for the amended C7. -/
theorem claim_C7_direct_reference_witness :
    load_pkg (some (strL "h/r")) (some (strL "abc123")) (some (strL "t")) (strL "main")
        false false envNoErr =
      PyOutcome.ret (loadSuccess (strL "t") (strL "h/r") (strL "main") (strL "abc123")) :=
  (claim_C7_direct_reference (strL "abc123")).2 (strL "h/r") (strL "t") (strL "main")
    false envNoErr (by decide) (by decide) (by decide) (by decide) rfl rfl rfl

/-- C8: if the tag already exists and `force` is false, `create_tag` returns
an already-exists failure and leaves the repository unchanged (no tag
created); with `force` it deletes the local tag first and recreates it, so the
resulting tag points at the current head commit. -/
theorem claim_C8_tag_exists (st : TagRepoState) (env : TagEnv) (url name : Str) (push : Bool)
    (hurl : url ≠ []) (hname : name ≠ []) (hclone : env.cloneErr = none)
    (hex : name ∈ st.tags.map Prod.fst) :
    (create_tag (some url) (some name) false push env st =
      (⟨false, strL "Tag '" ++ name ++ strL "' already exists. Use force=True to overwrite.",
        none, none, none⟩, st))
    ∧ ((create_tag (some url) (some name) true push env st).2.tags =
        st.tags.filter (fun p => p.1 ≠ name) ++ [(name, st.head)])
    ∧ lookupTag (create_tag (some url) (some name) true push env st).2 name =
        some st.head := by
  have hform : (create_tag (some url) (some name) true push env st).2.tags =
      st.tags.filter (fun p => p.1 ≠ name) ++ [(name, st.head)] := by
    unfold create_tag
    dsimp only
    rw [if_neg hurl, if_neg hname, hclone]
    dsimp only
    rw [if_neg (by simp)]
    rw [if_pos hex]
    cases push with
    | false => rfl
    | true =>
      dsimp only
      cases env.pushErr <;> rfl
  refine ⟨?_, hform, ?_⟩
  · unfold create_tag
    dsimp only
    rw [if_neg hurl, if_neg hname, hclone]
    dsimp only
    rw [if_pos ⟨hex, by simp⟩]
  · unfold lookupTag
    rw [hform]
    rw [List.filter_append]
    have h1 : (st.tags.filter (fun p => p.1 ≠ name)).filter (fun p => p.1 = name) = [] := by
      rw [List.filter_filter]
      rw [List.filter_eq_nil_iff]
      intro a _
      simp only [Bool.and_eq_true, decide_eq_true_eq]
      rintro ⟨h1, h2⟩
      exact h2 h1
    rw [h1]
    simp

/-- Witness for C8 on a one-tag repository. -/
theorem claim_C8_tag_exists_witness :
    (create_tag (some (strL "h/r")) (some (strL "v1")) false false ⟨none, none⟩
        ⟨[(strL "v1", 1)], 2⟩ =
      (⟨false,
        strL "Tag '" ++ strL "v1" ++ strL "' already exists. Use force=True to overwrite.",
        none, none, none⟩, ⟨[(strL "v1", 1)], 2⟩))
    ∧ ((create_tag (some (strL "h/r")) (some (strL "v1")) true false ⟨none, none⟩
        ⟨[(strL "v1", 1)], 2⟩).2.tags =
        ([(strL "v1", 1)] : List (Str × Nat)).filter (fun p => p.1 ≠ strL "v1") ++
          [(strL "v1", 2)])
    ∧ lookupTag (create_tag (some (strL "h/r")) (some (strL "v1")) true false ⟨none, none⟩
        ⟨[(strL "v1", 1)], 2⟩).2 (strL "v1") = some 2 :=
  claim_C8_tag_exists ⟨[(strL "v1", 1)], 2⟩ ⟨none, none⟩ (strL "h/r") (strL "v1") false
    (by decide) (by decide) rfl (by decide)

/-- C9: when the copy step leaves nothing to commit, `publish_pkg` returns
success with the explicit `No changes to commit` message and creates no new
commit — the repository's commit history is unchanged. -/
theorem claim_C9_publish_no_changes (pkg_dir meta_file : Str) (commit_message : Option Str)
    (push tag : Bool) (env : PubEnv) (st : RepoHistory)
    (hmeta : env.metaExists = true) (hrepo : env.dbRepo.isSome = true)
    (hclone : env.cloneErr = none) (hbranch : env.branchErr = none)
    (hcopy : env.copyErr = none) (hdirty : env.dirtyAfterCopy = false) :
    ∃ d, publish_pkg pkg_dir meta_file commit_message push tag env st = (d, st) ∧
      d.success = true ∧ d.message = strL "No changes to commit" := by
  unfold publish_pkg
  rw [if_neg (by simp [hmeta])]
  obtain ⟨r, hr⟩ := Option.isSome_iff_exists.mp hrepo
  rw [hr]
  dsimp only
  rw [hclone]
  dsimp only
  rw [hbranch]
  dsimp only
  rw [hcopy]
  dsimp only
  rw [if_pos (by simp [hdirty])]
  exact ⟨_, rfl, rfl, rfl⟩

/-- Witness for C9 on a concrete clean-copy environment. -/
theorem claim_C9_publish_no_changes_witness :
    ∃ d, publish_pkg (strL "pkg") (strL "pkg.json") none true true
        ⟨true, some (strL "h/r"), strL "math-utils", some (strL "1.0.0"), strL "cache/h_r",
          none, none, none, false, none, true, [], [], 7⟩ ⟨[1, 2]⟩ = (d, ⟨[1, 2]⟩) ∧
      d.success = true ∧ d.message = strL "No changes to commit" :=
  claim_C9_publish_no_changes (strL "pkg") (strL "pkg.json") none true true
    ⟨true, some (strL "h/r"), strL "math-utils", some (strL "1.0.0"), strL "cache/h_r",
      none, none, none, false, none, true, [], [], 7⟩ ⟨[1, 2]⟩
    rfl rfl rfl rfl rfl rfl
